import Mathlib

/-!
# Formal model of the report-generation engine of `smart_aquaculture_web`

A shallow embedding, in Lean 4, of the page-composition and tick-planning
core of the repository:

* `src/utils/download.ts` — `downloadPagedElementsAsPdf` (pagination of
  blocks into pages, per-page off-screen staging, capture, placement
  geometry, cleanup) and `downloadElementAsPdf` (legacy single-element
  slicing across pages);
* `src/components/TrendChart.tsx` — the adaptive x-axis tick planner
  (`resolve` and the candidate loop inside the `tickPlan` memo);
* the `waitForCharts` bounded readiness poll of the export pipeline.

JavaScript numbers are modelled as `ℚ` (exact arithmetic; every quantity
involved is derived from integer pixel/point values by `+ - * /`, far from
any double-precision rounding that could change a comparison).  DOM side
effects are modelled as explicit state: the number of staged wrapper nodes
currently appended to `document.body`, and an abstract capture oracle
standing for `html2canvas` (which either yields an image or throws).
External measurement callbacks (`ctx.measureText`, trigonometric label
projection) enter the model as opaque rational parameters.
-/

namespace SmartAqua

/-! ## Pagination model (`downloadPagedElementsAsPdf`, download.ts lines 191-385) -/

/-- The `itemsPerPage` option of `downloadPagedElementsAsPdf`: either a
constant number or a function of the page index
(`itemsPerPage: number | ((ctx: { pageIndex: number }) => number)`). -/
inductive ItemsPerPage where
  | const : ℚ → ItemsPerPage
  | func : (ℕ → ℚ) → ItemsPerPage

/-- JavaScript truthiness of the `itemsPerPage` value, as tested by
`if (!itemsPerPage) return;` (line 211).  A number is falsy exactly when it
is `0` (`NaN` does not exist in `ℚ`); a function value is always truthy. -/
def itemsPerPageTruthy : ItemsPerPage → Bool
  | .const n => decide (n ≠ 0)
  | .func _ => true

/-- The raw per-page value
`typeof itemsPerPage === 'function' ? itemsPerPage({ pageIndex }) : itemsPerPage`
(line 222). -/
def rawItemsPerPage : ItemsPerPage → ℕ → ℚ
  | .const n, _ => n
  | .func f, i => f i

/-- `getItemsPerPage` (download.ts lines 221-225):
`Number.isFinite(v) && v >= 1 ? Math.floor(v) : 1`.  Every `ℚ` is finite, so
the guard reduces to `v >= 1`. -/
def getItemsPerPage (ipp : ItemsPerPage) (i : ℕ) : ℕ :=
  let v := rawItemsPerPage ipp i
  if 1 ≤ v then Int.toNat ⌊v⌋ else 1

/-- The page-splitting `while` loop (download.ts lines 233-241):
`while (cursor < safeElements.length) { pages.push(slice(cursor, cursor+count)); … }`.
The fuel argument bounds the number of iterations; since every page consumes
at least one element, `l.length` fuel always suffices (see `splitPages`). -/
def splitPagesAux {α : Type} (cap : ℕ → ℕ) : ℕ → ℕ → List α → List (List α)
  | 0, _, _ => []
  | _ + 1, _, [] => []
  | fuel + 1, idx, x :: xs =>
    ((x :: xs).take (cap idx)) :: splitPagesAux cap fuel (idx + 1) ((x :: xs).drop (cap idx))

/-- The partition of `elements` into pages, page `i` receiving `cap i`
elements, exactly as the splitting loop of `downloadPagedElementsAsPdf`
builds `pages`. -/
def splitPages {α : Type} (cap : ℕ → ℕ) (l : List α) : List (List α) :=
  splitPagesAux cap l.length 0 l

/-- One step of the per-page export loop (download.ts lines 244-382), with
the DOM and `html2canvas` abstracted: `staged` counts wrapper nodes currently
appended to `document.body`; `captureOk i` tells whether `html2canvas`
succeeds on page `i`.  Per page the code appends the wrapper (line 352),
captures (line 354), and removes the wrapper (line 381); there is no
`try`/`finally`, so when capture throws, the error propagates with the
wrapper still appended.  Returns (staged wrappers left, index of the failing
page if any). -/
def exportLoop {α : Type} (captureOk : ℕ → Bool) :
    List (List α) → ℕ → ℕ → ℕ × Option ℕ
  | [], _, staged => (staged, none)
  | p :: rest, i, staged =>
    if p.isEmpty then
      exportLoop captureOk rest (i + 1) staged
    else
      -- document.body.appendChild(wrapper)
      let afterAppend := staged + 1
      if captureOk i then
        -- capture succeeded; wrapper.remove()
        exportLoop captureOk rest (i + 1) (afterAppend - 1)
      else
        -- html2canvas threw: the error propagates, wrapper.remove() is not reached
        (afterAppend, some i)

/-- Observable outcome of one `downloadPagedElementsAsPdf` call:
whether the `jsPDF` document object was created (line 213), the computed
page partition, how many staged wrappers are left in the DOM when the call
ends, which page's capture failed (if any), and whether `pdf.save` ran. -/
structure PagedExportOutcome (α : Type) where
  docCreated : Bool
  pages : List (List α)
  stagedLeft : ℕ
  failedAt : Option ℕ
  saved : Bool
deriving DecidableEq

/-- The outcome of the early returns at lines 210-211: nothing happens. -/
def noopOutcome {α : Type} : PagedExportOutcome α :=
  { docCreated := false, pages := [], stagedLeft := 0, failedAt := none, saved := false }

/-- `downloadPagedElementsAsPdf` (download.ts lines 191-385) as a state
transformer on the modelled observables.  `elements` stands for
`safeElements` (the caller's non-null elements; `elements.filter(Boolean)`
is the identity on them).  The two early returns are lines 210 and 211;
`pdf.save(filename)` (line 384) is reached only when no capture threw. -/
def downloadPagedElementsAsPdfModel {α : Type} (elements : List α)
    (ipp : ItemsPerPage) (captureOk : ℕ → Bool) : PagedExportOutcome α :=
  if elements.isEmpty then noopOutcome
  else if itemsPerPageTruthy ipp = false then noopOutcome
  else
    let pages := splitPages (getItemsPerPage ipp) elements
    let r := exportLoop captureOk pages 0 0
    { docCreated := true, pages := pages, stagedLeft := r.1, failedAt := r.2,
      saved := r.2.isNone }

/-! ### Pagination lemmas -/

theorem getItemsPerPage_pos (ipp : ItemsPerPage) (i : ℕ) : 1 ≤ getItemsPerPage ipp i := by
  show 1 ≤ if 1 ≤ rawItemsPerPage ipp i then Int.toNat ⌊rawItemsPerPage ipp i⌋ else 1
  by_cases h : 1 ≤ rawItemsPerPage ipp i
  · rw [if_pos h]
    have h1 : (1 : ℤ) ≤ ⌊rawItemsPerPage ipp i⌋ := Int.le_floor.mpr (by exact_mod_cast h)
    omega
  · rw [if_neg h]

theorem getItemsPerPage_const_nat (k : ℕ) (hk : 1 ≤ k) (i : ℕ) :
    getItemsPerPage (ItemsPerPage.const (k : ℚ)) i = k := by
  unfold getItemsPerPage rawItemsPerPage
  have h1 : (1 : ℚ) ≤ (k : ℚ) := by exact_mod_cast hk
  rw [if_pos h1]
  simp

theorem splitPagesAux_nil {α : Type} (cap : ℕ → ℕ) (fuel idx : ℕ) :
    splitPagesAux (α := α) cap fuel idx [] = [] := by
  cases fuel <;> rfl

theorem splitPagesAux_join {α : Type} (cap : ℕ → ℕ) (hcap : ∀ i, 1 ≤ cap i) :
    ∀ (fuel idx : ℕ) (l : List α), l.length ≤ fuel →
      (splitPagesAux cap fuel idx l).flatten = l := by
  intro fuel
  induction fuel with
  | zero =>
    intro idx l hl
    have : l = [] := List.length_eq_zero.mp (Nat.le_zero.mp hl)
    subst this; rfl
  | succ n ih =>
    intro idx l hl
    match l with
    | [] => rfl
    | x :: xs =>
      have hc := hcap idx
      have hdrop : ((x :: xs).drop (cap idx)).length ≤ n := by
        rw [List.length_drop]
        simp only [List.length_cons] at hl ⊢
        omega
      simp only [splitPagesAux, List.flatten_cons, ih (idx + 1) _ hdrop,
        List.take_append_drop]

theorem splitPagesAux_full {α : Type} (cap : ℕ → ℕ) (hcap : ∀ i, 1 ≤ cap i) :
    ∀ (fuel idx : ℕ) (l : List α), l.length ≤ fuel →
      ∀ j, j + 1 < (splitPagesAux cap fuel idx l).length →
        ((splitPagesAux cap fuel idx l).getD j []).length = cap (idx + j) := by
  intro fuel
  induction fuel with
  | zero => intro idx l _ j hj; simp [splitPagesAux] at hj
  | succ n ih =>
    intro idx l hl j hj
    match l with
    | [] => simp [splitPagesAux] at hj
    | x :: xs =>
      simp only [splitPagesAux] at hj ⊢
      match j with
      | 0 =>
        simp only [List.length_cons] at hj
        have hrest : splitPagesAux cap n (idx + 1) ((x :: xs).drop (cap idx)) ≠ [] := by
          intro hnil
          rw [hnil] at hj
          simp at hj
        have hdrop_ne : ((x :: xs).drop (cap idx)) ≠ [] := by
          intro hnil
          rw [hnil, splitPagesAux_nil] at hrest
          exact hrest rfl
        have hlen : cap idx < (x :: xs).length := by
          by_contra hge
          push_neg at hge
          exact hdrop_ne (List.drop_eq_nil_of_le hge)
        simpa using List.length_take_of_le (Nat.le_of_lt hlen)
      | j + 1 =>
        have hc := hcap idx
        have hdrop : ((x :: xs).drop (cap idx)).length ≤ n := by
          rw [List.length_drop]
          simp only [List.length_cons] at hl ⊢
          omega
        have := ih (idx + 1) _ hdrop j (by
          simp only [List.length_cons] at hj
          omega)
        simpa [Nat.add_assoc, Nat.add_comm 1 j, Nat.add_left_comm] using this

theorem splitPagesAux_length_const {α : Type} (k : ℕ) (hk : 1 ≤ k) :
    ∀ (fuel idx : ℕ) (l : List α), l.length ≤ fuel → 1 ≤ l.length →
      (splitPagesAux (fun _ => k) fuel idx l).length = (l.length - 1) / k + 1 := by
  intro fuel
  induction fuel with
  | zero => intro idx l hl h1; omega
  | succ n ih =>
    intro idx l hl h1
    match l with
    | x :: xs =>
      simp only [splitPagesAux, List.length_cons]
      by_cases hle : xs.length + 1 ≤ k
      · have hdrop : (x :: xs).drop k = [] :=
          List.drop_eq_nil_of_le (by simpa using hle)
        rw [hdrop, splitPagesAux_nil]
        have h0 : xs.length / k = 0 := Nat.div_eq_of_lt (by omega)
        simp [h0]
      · push_neg at hle
        have hlen_drop : ((x :: xs).drop k).length = xs.length + 1 - k := by
          simp [List.length_drop]
        have hfuel : ((x :: xs).drop k).length ≤ n := by
          simp only [List.length_cons] at hl
          omega
        have hone : 1 ≤ ((x :: xs).drop k).length := by omega
        rw [ih (idx + 1) _ hfuel hone, hlen_drop]
        have hsub : xs.length + 1 - k - 1 + k = xs.length + 1 - 1 := by omega
        calc (xs.length + 1 - k - 1) / k + 1 + 1
            = ((xs.length + 1 - k - 1) + k) / k + 1 := by
              rw [Nat.add_div_right _ (by omega)]
          _ = (xs.length + 1 - 1) / k + 1 := by rw [hsub]

theorem splitPagesAux_last_const {α : Type} (k : ℕ) (hk : 1 ≤ k) :
    ∀ (fuel idx : ℕ) (l : List α), l.length ≤ fuel → 1 ≤ l.length →
      (((splitPagesAux (fun _ => k) fuel idx l).getLast?.getD []).length)
        = (l.length - 1) % k + 1 := by
  intro fuel
  induction fuel with
  | zero => intro idx l hl h1; omega
  | succ n ih =>
    intro idx l hl h1
    match l with
    | x :: xs =>
      simp only [splitPagesAux]
      by_cases hle : xs.length + 1 ≤ k
      · have hdrop : (x :: xs).drop k = [] :=
          List.drop_eq_nil_of_le (by simpa using hle)
        rw [hdrop, splitPagesAux_nil]
        have htake : (x :: xs).take k = x :: xs :=
          List.take_of_length_le (by simpa using hle)
        have hmod : xs.length % k = xs.length := Nat.mod_eq_of_lt (by omega)
        simp [htake, hmod]
      · push_neg at hle
        have hlen_drop : ((x :: xs).drop k).length = xs.length + 1 - k := by
          simp [List.length_drop]
        have hfuel : ((x :: xs).drop k).length ≤ n := by
          simp only [List.length_cons] at hl
          omega
        have hone : 1 ≤ ((x :: xs).drop k).length := by omega
        have hrec := ih (idx + 1) _ hfuel hone
        cases hsplit : splitPagesAux (fun _ => k) n (idx + 1) ((x :: xs).drop k) with
        | nil =>
          exfalso
          rw [hsplit] at hrec
          rw [hlen_drop] at hrec
          simp at hrec
        | cons r rs =>
          rw [List.getLast?_cons_cons, ← hsplit, hrec, hlen_drop]
          have h1' : k ≤ xs.length + 1 - 1 := by omega
          have heq : xs.length + 1 - k - 1 = xs.length + 1 - 1 - k := by omega
          rw [List.length_cons, heq, ← Nat.mod_eq_sub_mod h1']

theorem splitPages_model {α : Type} (l : List α) (hl : l ≠ []) (ipp : ItemsPerPage)
    (ht : itemsPerPageTruthy ipp = true) (captureOk : ℕ → Bool) :
    (downloadPagedElementsAsPdfModel l ipp captureOk).pages
      = splitPages (getItemsPerPage ipp) l := by
  unfold downloadPagedElementsAsPdfModel
  rw [if_neg (by simp [List.isEmpty_iff, hl]), if_neg (by simp [ht])]

/-- C1: for a non-empty block list of length `n` and a constant capacity
`k ≥ 1`, the partition computed by `downloadPagedElementsAsPdf` has
`⌈n/k⌉ = (n+k-1)/k` pages, every page but the last has exactly `k` items,
the last has `n - k*(⌈n/k⌉-1)`, and concatenating the pages reproduces the
input exactly (no gaps, no duplicates).  With a per-page capacity function
(each value ≥ 1), page `i` receives exactly `cap i` items except possibly
the last page; 7 blocks with capacity 3 on page 0 and 4 afterwards give
pages `[[b0,b1,b2],[b3,b4,b5,b6]]`. -/
theorem c1_pagination (k : ℕ) (hk : 1 ≤ k) (l : List ℕ) (hl : l ≠ [])
    (cap : ℕ → ℕ) (hcap : ∀ i, 1 ≤ cap i) (captureOk : ℕ → Bool) :
    (downloadPagedElementsAsPdfModel l (ItemsPerPage.const (k : ℚ)) captureOk).pages
        = splitPages (fun _ => k) l ∧
    (splitPages (fun _ => k) l).length = (l.length + k - 1) / k ∧
    (∀ j, j + 1 < (splitPages (fun _ => k) l).length →
      ((splitPages (fun _ => k) l).getD j []).length = k) ∧
    ((splitPages (fun _ => k) l).getLast?.getD []).length
        = l.length - k * ((splitPages (fun _ => k) l).length - 1) ∧
    (splitPages (fun _ => k) l).flatten = l ∧
    (splitPages cap l).flatten = l ∧
    (∀ j, j + 1 < (splitPages cap l).length →
      ((splitPages cap l).getD j []).length = cap j) ∧
    splitPages (fun i => if i = 0 then 3 else 4) (List.range 7)
        = [[0, 1, 2], [3, 4, 5, 6]] := by
  have hn1 : 1 ≤ l.length := List.length_pos.mpr hl
  have hconst : getItemsPerPage (ItemsPerPage.const (k : ℚ)) = fun _ => k :=
    funext (getItemsPerPage_const_nat k hk)
  have hlen : (splitPages (fun _ => k) l).length = (l.length - 1) / k + 1 :=
    splitPagesAux_length_const k hk l.length 0 l (le_refl _) hn1
  refine ⟨?_, ?_, ?_, ?_, ?_, ?_, ?_, ?_⟩
  · rw [splitPages_model l hl _ (by simp [itemsPerPageTruthy]; positivity) captureOk, hconst]
  · rw [hlen]
    have h2 : l.length + k - 1 = (l.length - 1) + k := by omega
    rw [h2, Nat.add_div_right _ (by omega)]
  · intro j hj
    simpa using splitPagesAux_full (fun _ => k) (fun _ => hk) l.length 0 l (le_refl _) j hj
  · have hlast : ((splitPages (fun _ => k) l).getLast?.getD []).length
        = (l.length - 1) % k + 1 :=
      splitPagesAux_last_const k hk l.length 0 l (le_refl _) hn1
    rw [hlast, hlen]
    have hdm := Nat.div_add_mod (l.length - 1) k
    have h3 : (l.length - 1) / k + 1 - 1 = (l.length - 1) / k := Nat.add_sub_cancel _ _
    rw [h3]
    generalize hq : k * ((l.length - 1) / k) = a at hdm ⊢
    omega
  · exact splitPagesAux_join (fun _ => k) (fun _ => hk) l.length 0 l (le_refl _)
  · exact splitPagesAux_join cap hcap l.length 0 l (le_refl _)
  · intro j hj
    simpa using splitPagesAux_full cap hcap l.length 0 l (le_refl _) j hj
  · decide

/-- Instantiation of `c1_pagination` at concrete inputs: 7 blocks, constant
capacity 3, an always-1 varying capacity, captures all succeeding. -/
theorem c1_pagination_witness :
    (1 ≤ 3 ∧ List.range 7 ≠ [] ∧ (∀ i : ℕ, 1 ≤ (fun _ : ℕ => 2) i)) ∧
    (splitPages (fun _ => 3) (List.range 7)).flatten = List.range 7 :=
  ⟨⟨by decide, by decide, fun _ => one_le_two⟩,
    (c1_pagination 3 (by decide) (List.range 7) (by decide) (fun _ => 2)
      (fun _ => one_le_two) (fun _ => true)).2.2.2.2.1⟩

/-! ### Staging cleanup (claim C2) and no-op boundary (claim C6) -/

theorem exportLoop_staged {α : Type} (captureOk : ℕ → Bool) :
    ∀ (ps : List (List α)) (i s : ℕ),
      (exportLoop captureOk ps i s).1
        = if (exportLoop captureOk ps i s).2.isSome then s + 1 else s := by
  intro ps
  induction ps with
  | nil => intro i s; simp [exportLoop]
  | cons p rest ih =>
    intro i s
    by_cases hp : p.isEmpty
    · simp only [exportLoop, hp, if_true]
      exact ih (i + 1) s
    · by_cases hc : captureOk i
      · simp only [exportLoop, hp, if_false, hc, if_true, Bool.false_eq_true,
          Nat.add_sub_cancel]
        exact ih (i + 1) s
      · simp [exportLoop, hp, hc]

theorem model_staged {α : Type} (elements : List α) (ipp : ItemsPerPage)
    (captureOk : ℕ → Bool) :
    (downloadPagedElementsAsPdfModel elements ipp captureOk).stagedLeft
      = if (downloadPagedElementsAsPdfModel elements ipp captureOk).failedAt.isSome
        then 1 else 0 := by
  unfold downloadPagedElementsAsPdfModel
  split
  · rfl
  · split
    · rfl
    · simpa using exportLoop_staged captureOk (splitPages (getItemsPerPage ipp) elements) 0 0

/-- C2 (amended): `downloadPagedElementsAsPdf` removes every staging wrapper
it appended only on the success path.  When every capture succeeds, no
wrapper is left in the DOM; but when `html2canvas` throws on some page, the
error propagates with that page's wrapper still appended to `document.body`
(there is no `try`/`finally` around the capture), so exactly one stale
wrapper is left behind. -/
theorem c2_staging_cleanup {α : Type} (elements : List α) (ipp : ItemsPerPage)
    (captureOk : ℕ → Bool) :
    ((downloadPagedElementsAsPdfModel elements ipp captureOk).failedAt = none →
      (downloadPagedElementsAsPdfModel elements ipp captureOk).stagedLeft = 0) ∧
    (∀ i, (downloadPagedElementsAsPdfModel elements ipp captureOk).failedAt = some i →
      (downloadPagedElementsAsPdfModel elements ipp captureOk).stagedLeft = 1) := by
  constructor
  · intro hnone
    rw [model_staged, hnone]
    rfl
  · intro i hsome
    rw [model_staged, hsome]
    rfl

/-- C2 counterexample: one block whose capture throws.  The claim says the
staged wrapper is removed before the error propagates; in fact the failed
export leaves it in the DOM (`stagedLeft = 1`). -/
theorem c2_counterexample :
    (downloadPagedElementsAsPdfModel [0] (ItemsPerPage.const 1) (fun _ => false)).failedAt
        = some 0 ∧
    (downloadPagedElementsAsPdfModel [0] (ItemsPerPage.const 1) (fun _ => false)).stagedLeft
        = 1 := by
  constructor <;> rfl

/-- C6 (amended): the empty-input no-op holds for an empty block list, and
for the falsy constant capacity `0`; but a capacity *function* that never
returns a value ≥ 1 is truthy, so the export is not a no-op: every
per-page capacity is clamped up to 1 and a document is produced. -/
theorem c6_empty_input {α : Type} (l : List α) (ipp : ItemsPerPage)
    (captureOk : ℕ → Bool) (f : ℕ → ℚ) (hl : l ≠ []) (hf : ∀ i, f i < 1) :
    downloadPagedElementsAsPdfModel ([] : List α) ipp captureOk = noopOutcome ∧
    downloadPagedElementsAsPdfModel l (ItemsPerPage.const 0) captureOk = noopOutcome ∧
    (downloadPagedElementsAsPdfModel l (ItemsPerPage.func f) captureOk).docCreated = true ∧
    (downloadPagedElementsAsPdfModel l (ItemsPerPage.func f) captureOk).pages
        = splitPages (fun _ => 1) l := by
  have hone : getItemsPerPage (ItemsPerPage.func f) = fun _ => 1 := by
    funext i
    show (if 1 ≤ f i then Int.toNat ⌊f i⌋ else 1) = 1
    rw [if_neg (not_le.mpr (hf i))]
  refine ⟨by simp [downloadPagedElementsAsPdfModel], ?_, ?_, ?_⟩
  · unfold downloadPagedElementsAsPdfModel
    split
    · rfl
    · rw [if_pos]
      simp [itemsPerPageTruthy]
  · unfold downloadPagedElementsAsPdfModel
    rw [if_neg (by simp [List.isEmpty_iff, hl]), if_neg (by simp [itemsPerPageTruthy])]
  · rw [splitPages_model l hl _ (by simp [itemsPerPageTruthy]) captureOk, hone]

/-- C6 counterexample: one block and the capacity function constantly `0`
(never ≥ 1).  The claim calls this a silent no-op with no document; in fact
the function value is truthy, each page's capacity is clamped to 1, and a
one-page document is created and saved. -/
theorem c6_counterexample :
    (∀ i : ℕ, rawItemsPerPage (ItemsPerPage.func (fun _ => 0)) i < 1) ∧
    (downloadPagedElementsAsPdfModel [0] (ItemsPerPage.func (fun _ => 0))
      (fun _ => true)).docCreated = true ∧
    (downloadPagedElementsAsPdfModel [0] (ItemsPerPage.func (fun _ => 0))
      (fun _ => true)).saved = true ∧
    downloadPagedElementsAsPdfModel [0] (ItemsPerPage.func (fun _ => 0))
      (fun _ => true) ≠ noopOutcome := by
  refine ⟨?_, rfl, rfl, by decide⟩
  intro i
  show (0 : ℚ) < 1
  decide

/-- Instantiation of `c6_empty_input` at concrete inputs: one block, a
capacity function constantly 0. -/
theorem c6_empty_input_witness :
    (([0] : List ℕ) ≠ [] ∧ (∀ i : ℕ, (fun _ : ℕ => (0 : ℚ)) i < 1)) ∧
    (downloadPagedElementsAsPdfModel [0] (ItemsPerPage.func (fun _ : ℕ => (0 : ℚ)))
      (fun _ => true)).pages = splitPages (fun _ => 1) [0] :=
  ⟨⟨by decide, by intro i; show (0 : ℚ) < 1; decide⟩,
    (c6_empty_input [0] (ItemsPerPage.const 1) (fun _ => true) (fun _ : ℕ => (0 : ℚ))
      (by decide) (by intro i; show (0 : ℚ) < 1; decide)).2.2.2⟩

/-! ## Staging wrapper width (claim C7, download.ts lines 247-258) -/

/-- `Math.round` on a rational: floor of `q + 1/2` (JavaScript rounds
half-up). -/
def jsRound (q : ℚ) : ℤ := ⌊q + 1 / 2⌋

/-- download.ts lines 247-248:
`requestedWidthPx = Math.round(wrapperWidthPx);`
`resolvedWrapperWidthPx = Math.min(980, Math.max(520, Number.isFinite(requestedWidthPx) ? requestedWidthPx : 780));`
(every `ℚ` is finite, so the ternary always takes `requestedWidthPx`).
`wrapper.style.width` is set to this resolved value (line 258). -/
def resolvedWrapperWidth (wrapperWidthPx : ℚ) : ℚ :=
  min 980 (max 520 ((jsRound wrapperWidthPx : ℤ) : ℚ))

theorem jsRound_intCast (z : ℤ) : jsRound (z : ℚ) = z := by
  unfold jsRound
  rw [Int.floor_int_add]
  norm_num [Int.floor_eq_iff]

/-- C7 counterexample: for the caller-supplied target width 300 px the
staging container is created 520 px wide (the clamp into `[520, 980]`
applies), not 300 px wide as the claim requires. -/
theorem c7_counterexample :
    resolvedWrapperWidth 300 = 520 ∧ ¬ resolvedWrapperWidth 300 = 300 := by
  have h : jsRound (300 : ℚ) = 300 := by
    have := jsRound_intCast 300
    norm_num at this
    exact this
  have hm : resolvedWrapperWidth 300 = 520 := by
    unfold resolvedWrapperWidth
    rw [h]
    rw [max_eq_left (by norm_num), min_eq_right (by norm_num)]
  exact ⟨hm, by rw [hm]; norm_num⟩

/-- C7 (amended): the staging container's width is
`min(980, max(520, round(wrapperWidthPx)))` — the requested export width
rounded and clamped into `[520, 980]` — so it always lies in `[520, 980]`
and equals `wrapperWidthPx` exactly when the request is an integer in that
range (as with the repository's caller, which passes
`round(595.28 * 96 / 72) = 794`). -/
theorem c7_wrapper_width (w : ℚ) (z : ℤ) (hz1 : (520 : ℤ) ≤ z) (hz2 : z ≤ 980) :
    (520 ≤ resolvedWrapperWidth w ∧ resolvedWrapperWidth w ≤ 980) ∧
    resolvedWrapperWidth (z : ℚ) = (z : ℚ) ∧
    resolvedWrapperWidth 794 = 794 := by
  refine ⟨⟨?_, ?_⟩, ?_, ?_⟩
  · exact le_min (by norm_num) (le_max_left _ _)
  · exact min_le_left _ _
  · unfold resolvedWrapperWidth
    rw [jsRound_intCast]
    rw [max_eq_right (by exact_mod_cast hz1), min_eq_right (by exact_mod_cast hz2)]
  · have h : jsRound (794 : ℚ) = 794 := by
      have := jsRound_intCast 794
      norm_num at this
      exact this
    unfold resolvedWrapperWidth
    rw [h]
    rw [max_eq_right (by norm_num), min_eq_right (by norm_num)]
    norm_num

/-- Instantiation of `c7_wrapper_width`: the repository caller's integer
width 794 lies in `[520, 980]` and is reproduced exactly. -/
theorem c7_wrapper_width_witness :
    ((520 : ℤ) ≤ 794 ∧ (794 : ℤ) ≤ 980) ∧
    resolvedWrapperWidth ((794 : ℤ) : ℚ) = ((794 : ℤ) : ℚ) :=
  ⟨⟨by decide, by decide⟩,
    (c7_wrapper_width 300 794 (by decide) (by decide)).2.1⟩

/-! ## Placement geometry (claim C4, download.ts lines 363-379) -/

/-- `RenderGeometry`: position and size of one page image inside the PDF
page (`pdf.addImage(imgData, 'PNG', x, y, renderWidth, renderHeight)`). -/
structure RenderGeometry where
  width : ℚ
  height : ℚ
  x : ℚ
  y : ℚ
deriving DecidableEq

/-- download.ts lines 363-376, with the intermediate variables inlined:
`imgWidthRaw = contentWidth`, `imgHeightRaw = canvas.height * imgWidthRaw / canvas.width`,
`renderWidth/renderHeight` start at the raw values, `x = y = marginPt`; when
`renderHeight > contentHeight` the code sets `ratio = contentHeight / renderHeight`,
`renderHeight = contentHeight`, `renderWidth = renderWidth * ratio` and
re-centers `x = marginPt + (contentWidth - renderWidth) / 2`. -/
def placePageImage (marginPt contentWidth contentHeight canvasW canvasH : ℚ) :
    RenderGeometry :=
  if contentHeight < canvasH * contentWidth / canvasW then
    { width := contentWidth * (contentHeight / (canvasH * contentWidth / canvasW)),
      height := contentHeight,
      x := marginPt +
        (contentWidth - contentWidth * (contentHeight / (canvasH * contentWidth / canvasW))) / 2,
      y := marginPt }
  else
    { width := contentWidth,
      height := canvasH * contentWidth / canvasW,
      x := marginPt,
      y := marginPt }

/-- C4: the placed image always fits the content box (`width ≤ contentWidth`,
`height ≤ contentHeight`); when the natural width-fit height exceeds the
content height, width and height are both scaled by the same factor
`contentHeight / naturalHeight` (exactly — well within the 1e-3 tolerance)
and the image is re-centered at `x = marginPt + (contentWidth - width)/2`;
otherwise it is placed at full content width with no upscaling and
`x = marginPt`. -/
theorem c4_geometry (marginPt contentWidth contentHeight canvasW canvasH : ℚ)
    (hcw : 0 ≤ contentWidth) (hch : 0 < contentHeight) :
    (placePageImage marginPt contentWidth contentHeight canvasW canvasH).width
        ≤ contentWidth ∧
    (placePageImage marginPt contentWidth contentHeight canvasW canvasH).height
        ≤ contentHeight ∧
    (contentHeight < canvasH * contentWidth / canvasW →
      (placePageImage marginPt contentWidth contentHeight canvasW canvasH).width
          = contentWidth * (contentHeight / (canvasH * contentWidth / canvasW)) ∧
      (placePageImage marginPt contentWidth contentHeight canvasW canvasH).height
          = (canvasH * contentWidth / canvasW)
              * (contentHeight / (canvasH * contentWidth / canvasW)) ∧
      (placePageImage marginPt contentWidth contentHeight canvasW canvasH).x
          = marginPt + (contentWidth -
              (placePageImage marginPt contentWidth contentHeight canvasW canvasH).width) / 2) ∧
    (¬ contentHeight < canvasH * contentWidth / canvasW →
      (placePageImage marginPt contentWidth contentHeight canvasW canvasH).width
          = contentWidth ∧
      (placePageImage marginPt contentWidth contentHeight canvasW canvasH).height
          = canvasH * contentWidth / canvasW ∧
      (placePageImage marginPt contentWidth contentHeight canvasW canvasH).x = marginPt) := by
  by_cases hlt : contentHeight < canvasH * contentWidth / canvasW
  · have hH : (0 : ℚ) < canvasH * contentWidth / canvasW := lt_trans hch hlt
    have hratio : contentHeight / (canvasH * contentWidth / canvasW) ≤ 1 :=
      (div_le_one hH).mpr hlt.le
    have hw : (placePageImage marginPt contentWidth contentHeight canvasW canvasH).width
        = contentWidth * (contentHeight / (canvasH * contentWidth / canvasW)) := by
      rw [placePageImage, if_pos hlt]
    have hh : (placePageImage marginPt contentWidth contentHeight canvasW canvasH).height
        = contentHeight := by
      rw [placePageImage, if_pos hlt]
    have hx : (placePageImage marginPt contentWidth contentHeight canvasW canvasH).x
        = marginPt + (contentWidth -
            contentWidth * (contentHeight / (canvasH * contentWidth / canvasW))) / 2 := by
      rw [placePageImage, if_pos hlt]
    refine ⟨?_, hh.le.trans (le_refl _), fun _ => ⟨hw, ?_, ?_⟩, fun h => absurd hlt h⟩
    · rw [hw]
      exact mul_le_of_le_one_right hcw hratio
    · rw [hh, mul_comm, div_mul_cancel₀ _ (ne_of_gt hH)]
    · rw [hx, hw]
  · have hw : (placePageImage marginPt contentWidth contentHeight canvasW canvasH).width
        = contentWidth := by
      rw [placePageImage, if_neg hlt]
    have hh : (placePageImage marginPt contentWidth contentHeight canvasW canvasH).height
        = canvasH * contentWidth / canvasW := by
      rw [placePageImage, if_neg hlt]
    have hx : (placePageImage marginPt contentWidth contentHeight canvasW canvasH).x
        = marginPt := by
      rw [placePageImage, if_neg hlt]
    exact ⟨hw.le, hh.le.trans (not_lt.mp hlt), fun h => absurd h hlt,
      fun _ => ⟨hw, hh, hx⟩⟩

/-- Instantiation of `c4_geometry`: content box 500×300 pt, margin 24 pt,
canvas 1000×1200 px (natural width-fit height 600 > 300, so the image is
scaled by 300/600 = 1/2 and re-centered). -/
theorem c4_geometry_witness :
    ((0 : ℚ) ≤ 500 ∧ (0 : ℚ) < 300) ∧
    (placePageImage 24 500 300 1000 1200).width ≤ 500 ∧
    (placePageImage 24 500 300 1000 1200).height ≤ 300 :=
  ⟨⟨by norm_num, by norm_num⟩,
    (c4_geometry 24 500 300 1000 1200 (by norm_num) (by norm_num)).1,
    (c4_geometry 24 500 300 1000 1200 (by norm_num) (by norm_num)).2.1⟩

/-! ## Legacy single-element slicing (claim C8, download.ts lines 126-147) -/

/-- One observable call on the `jsPDF` document in the legacy path:
`pdf.addPage()` or `pdf.addImage(imgData, 'PNG', marginPt, position, …)`
(only the vertical position varies between draws). -/
inductive DocEvent where
  | addPage : DocEvent
  | addImage : ℚ → DocEvent
deriving DecidableEq

/-- The `while (heightLeft > 1)` loop of `downloadElementAsPdf`
(download.ts lines 140-145): each iteration draws the full image at
`position = marginPt - (imgHeight - heightLeft)` and decrements
`heightLeft` by one `contentHeight`.  The fuel argument bounds the number
of iterations; any fuel ≥ the number of loop iterations yields the same
list. -/
def slicePositions (imgHeight contentHeight marginPt : ℚ) : ℕ → ℚ → List ℚ
  | 0, _ => []
  | fuel + 1, heightLeft =>
    if 1 < heightLeft then
      (marginPt - (imgHeight - heightLeft))
        :: slicePositions imgHeight contentHeight marginPt fuel (heightLeft - contentHeight)
    else []

/-- The vertical positions of every `addImage` of the legacy path, in
order: the first draw at `position = marginPt` (line 137), then one
per loop iteration. -/
def legacyPositions (imgHeight contentHeight marginPt : ℚ) (fuel : ℕ) : List ℚ :=
  marginPt :: slicePositions imgHeight contentHeight marginPt fuel (imgHeight - contentHeight)

/-- The document-call trace of the legacy path: the first `addImage`
(line 137), then per loop iteration `addPage()` (line 141) followed by
`addImage` (line 143). -/
def legacyTrace (imgHeight contentHeight marginPt : ℚ) (fuel : ℕ) : List DocEvent :=
  DocEvent.addImage marginPt ::
    ((slicePositions imgHeight contentHeight marginPt fuel (imgHeight - contentHeight)).map
      (fun p => [DocEvent.addPage, DocEvent.addImage p])).flatten

/-- Number of document pages produced: `jsPDF` starts with one page and
each `addPage()` appends one. -/
def legacyPageCount (imgHeight contentHeight marginPt : ℚ) (fuel : ℕ) : ℕ :=
  1 + (slicePositions imgHeight contentHeight marginPt fuel (imgHeight - contentHeight)).length

theorem slicePositions_getD (imgHeight contentHeight marginPt : ℚ) :
    ∀ (fuel : ℕ) (hl : ℚ) (k : ℕ),
      k < (slicePositions imgHeight contentHeight marginPt fuel hl).length →
      (slicePositions imgHeight contentHeight marginPt fuel hl).getD k 0
        = marginPt - (imgHeight - hl) - k * contentHeight := by
  intro fuel
  induction fuel with
  | zero => intro hl k hk; simp [slicePositions] at hk
  | succ n ih =>
    intro hl k hk
    by_cases h1 : 1 < hl
    · simp only [slicePositions, if_pos h1] at hk ⊢
      match k with
      | 0 => simp
      | k + 1 =>
        simp only [List.getD_cons_succ, List.length_cons] at hk ⊢
        rw [ih (hl - contentHeight) k (by omega)]
        push_cast
        ring
    · simp [slicePositions, if_neg h1] at hk

theorem slicePositions_stop (imgHeight contentHeight marginPt : ℚ)
    (fuel : ℕ) (hl : ℚ) (h : hl ≤ 1) :
    slicePositions imgHeight contentHeight marginPt fuel hl = [] := by
  cases fuel with
  | zero => rfl
  | succ n => simp [slicePositions, not_lt.mpr h]

/-- C8: the legacy `downloadElementAsPdf` path slices an oversized image by
repeatedly drawing it at a vertical offset that decreases by exactly one
content height per page (`positions[k] = marginPt - k*contentHeight`),
looping while the remaining height exceeds 1 pt, with `addPage()` before
every drawing after the first; in particular a width-fit image height of
2.3 × the content-box height yields exactly 3 document pages, the third
covering the remaining 0.3 × portion. -/
theorem c8_legacy_slicing (imgHeight contentHeight marginPt : ℚ) (fuel : ℕ)
    (hch : 10 / 3 < contentHeight) (him : imgHeight = 23 / 10 * contentHeight)
    (hfuel : 2 ≤ fuel) :
    (∀ (img cH m : ℚ) (f k : ℕ), k < (legacyPositions img cH m f).length →
      (legacyPositions img cH m f).getD k 0 = m - k * cH) ∧
    legacyTrace imgHeight contentHeight marginPt fuel
        = [DocEvent.addImage marginPt, DocEvent.addPage,
           DocEvent.addImage (marginPt - contentHeight), DocEvent.addPage,
           DocEvent.addImage (marginPt - 2 * contentHeight)] ∧
    legacyPageCount imgHeight contentHeight marginPt fuel = 3 ∧
    imgHeight - 2 * contentHeight = 3 / 10 * contentHeight := by
  have hpos : 0 < contentHeight := by linarith
  obtain ⟨f, rfl⟩ : ∃ f, fuel = f + 2 := ⟨fuel - 2, by omega⟩
  have hslice : slicePositions imgHeight contentHeight marginPt (f + 2)
      (imgHeight - contentHeight)
      = [marginPt - contentHeight, marginPt - 2 * contentHeight] := by
    have h1 : (1 : ℚ) < imgHeight - contentHeight := by rw [him]; linarith
    have h2 : (1 : ℚ) < imgHeight - contentHeight - contentHeight := by rw [him]; linarith
    have h3 : imgHeight - contentHeight - contentHeight - contentHeight ≤ 1 := by
      rw [him]; linarith
    simp only [slicePositions, if_pos h1, if_pos h2,
      slicePositions_stop imgHeight contentHeight marginPt f _ h3]
    have e1 : marginPt - (imgHeight - (imgHeight - contentHeight))
        = marginPt - contentHeight := by ring
    have e2 : marginPt - (imgHeight - (imgHeight - contentHeight - contentHeight))
        = marginPt - 2 * contentHeight := by ring
    rw [e1, e2]
  refine ⟨?_, ?_, ?_, ?_⟩
  · intro img cH m f' k hk
    match k with
    | 0 => simp [legacyPositions]
    | k + 1 =>
      have hk' : k < (slicePositions img cH m f' (img - cH)).length := by
        simpa [legacyPositions] using hk
      show (slicePositions img cH m f' (img - cH)).getD k 0 = m - (k + 1 : ℕ) * cH
      rw [slicePositions_getD img cH m f' (img - cH) k hk']
      push_cast
      ring
  · rw [legacyTrace, hslice]
    rfl
  · rw [legacyPageCount, hslice]
    rfl
  · rw [him]; ring

/-- Instantiation of `c8_legacy_slicing`: content height 500 pt, image
height 1150 = 2.3 × 500, margin 24 pt. -/
theorem c8_legacy_slicing_witness :
    ((10 : ℚ) / 3 < 500 ∧ (1150 : ℚ) = 23 / 10 * 500 ∧ 2 ≤ 2) ∧
    legacyPageCount 1150 500 24 2 = 3 :=
  ⟨⟨by norm_num, by norm_num, le_refl 2⟩,
    (c8_legacy_slicing 1150 500 24 2 (by norm_num) (by norm_num) (le_refl 2)).2.2.1⟩

/-! ## Adaptive tick planner (claims C3, C5, C10; TrendChart.tsx lines 246-341) -/

/-- One layout candidate of the tick planner (TrendChart.tsx lines 280-285):
mode (`double` = two-line label), font size in px, rotation angle in
degrees.  The source's candidate list is
`[{double, 11, 0}, {double, 10, 0}, {double, 10, -35}]`. -/
structure Candidate where
  double : Bool
  fontSize : ℚ
  angle : ℚ
deriving DecidableEq

/-- `const gap = Math.max(8, Math.round(cand.fontSize * 0.7));` (line 300). -/
def gapFor (cand : Candidate) : ℚ :=
  max 8 ((jsRound (cand.fontSize * (7 / 10)) : ℤ) : ℚ)

/-- `const perTick = Math.max(10, widthEff + gap);` (line 301).  `widthEff`
is the measured effective label footprint (maximum `measureText` width, for
rotated candidates projected through the angle); it comes from an external
callback and enters the model as an opaque rational parameter. -/
def perTickFor (cand : Candidate) (widthEff : ℚ) : ℚ :=
  max 10 (widthEff + gapFor cand)

/-- `const maxTicks = plotWidth > 0 ? Math.max(2, Math.floor(plotWidth / perTick)) : 2;`
(line 302). -/
def maxTicksFor (plotWidth perTick : ℚ) : ℕ :=
  if 0 < plotWidth then max 2 (Int.toNat ⌊plotWidth / perTick⌋) else 2

/-- `const step = Math.max(1, Math.ceil((count - 1) / (maxTicks - 1)));`
(line 317); on naturals `Math.ceil(a / b) = (a + b - 1) / b`. -/
def stepFor (count maxTicks : ℕ) : ℕ :=
  max 1 ((count - 1 + (maxTicks - 1) - 1) / (maxTicks - 1))

/-- The indices visited by `for (let i = 0; i < count; i += step)`
(line 319): `0, step, 2*step, …`, that is `j * step` for
`j < ⌈count / step⌉ = (count + step - 1) / step`. -/
def strideIndices (count step : ℕ) : List ℕ :=
  (List.range ((count + step - 1) / step)).map (fun j => j * step)

/-- `selected.push(uniqueTimes[i])` along the stride (line 319). -/
def strideSelect {α : Type} [Inhabited α] (ts : List α) (step : ℕ) : List α :=
  (strideIndices ts.length step).map (fun i => ts.getD i default)

/-- Lines 320-321: `const last = uniqueTimes[count - 1]; if
(selected[selected.length - 1] !== last) selected.push(last);` — the final
timestamp is force-appended unless the stride already ended on it. -/
def forceAppendLast {α : Type} [DecidableEq α] [Inhabited α] (ts sel : List α) : List α :=
  if sel.getLast? = some (ts.getD (ts.length - 1) default) then sel
  else sel ++ [ts.getD (ts.length - 1) default]

/-- `const halfPad = Math.min(120, Math.max(12, Math.ceil(widthEff / 2) + 10));`
(line 304). -/
def halfPadFor (widthEff : ℚ) : ℚ :=
  min 120 (max 12 (((⌈widthEff / 2⌉ : ℤ) : ℚ) + 10))

/-- `const height = cand.angle === 0 ? (cand.mode === 'double' ? 52 : 40) : 70;`
(line 305). -/
def bandHeightFor (cand : Candidate) : ℚ :=
  if cand.angle = 0 then (if cand.double then 52 else 40) else 70

/-- The plan one candidate resolves to: `ticks = none` models
`ticks: undefined` ("show all timestamps"); an explicit list models the
stride-selected subset. -/
structure ResolvedPlan (α : Type) where
  ticks : Option (List α)
  padLeft : ℚ
  padRight : ℚ
  bandHeight : ℚ

/-- `resolve` (TrendChart.tsx lines 287-330): show-all when
`count <= maxTicks || count <= 2` (lines 307-315), otherwise the stride
selection with forced final timestamp (lines 317-329). -/
def resolveCand {α : Type} [DecidableEq α] [Inhabited α] (uniqueTimes : List α)
    (plotWidth : ℚ) (cand : Candidate) (widthEff : ℚ) : ResolvedPlan α :=
  if uniqueTimes.length ≤ maxTicksFor plotWidth (perTickFor cand widthEff)
      ∨ uniqueTimes.length ≤ 2 then
    { ticks := none, padLeft := halfPadFor widthEff, padRight := halfPadFor widthEff,
      bandHeight := bandHeightFor cand }
  else
    { ticks := some (forceAppendLast uniqueTimes (strideSelect uniqueTimes
        (stepFor uniqueTimes.length (maxTicksFor plotWidth (perTickFor cand widthEff))))),
      padLeft := halfPadFor widthEff, padRight := halfPadFor widthEff,
      bandHeight := bandHeightFor cand }

/-- The candidate loop (lines 332-337): return the first candidate's plan
whose `ticks` is `undefined`; if every candidate needs an explicit list,
fall back to `resolve` of the last (most aggressive) candidate — which is
the same plan the loop just computed, hence the final two identical
branches. -/
def planTicks {α : Type} [DecidableEq α] [Inhabited α] (uniqueTimes : List α)
    (plotWidth : ℚ) (widthEffOf : ℕ → ℚ) : ResolvedPlan α :=
  if (resolveCand uniqueTimes plotWidth ⟨true, 11, 0⟩ (widthEffOf 0)).ticks = none then
    resolveCand uniqueTimes plotWidth ⟨true, 11, 0⟩ (widthEffOf 0)
  else if (resolveCand uniqueTimes plotWidth ⟨true, 10, 0⟩ (widthEffOf 1)).ticks = none then
    resolveCand uniqueTimes plotWidth ⟨true, 10, 0⟩ (widthEffOf 1)
  else if (resolveCand uniqueTimes plotWidth ⟨true, 10, -35⟩ (widthEffOf 2)).ticks = none then
    resolveCand uniqueTimes plotWidth ⟨true, 10, -35⟩ (widthEffOf 2)
  else
    resolveCand uniqueTimes plotWidth ⟨true, 10, -35⟩ (widthEffOf 2)

/-- `const uniqueTimes = Array.from(new Set(times));` (line 248): first
occurrences, in input order. -/
def uniqueKeepFirst {α : Type} [DecidableEq α] (l : List α) : List α :=
  l.foldl (fun acc x => if x ∈ acc then acc else acc ++ [x]) []

/-- `const plotWidth = Math.max(0, safeWidth - (Math.max(0, yAxisWidth) + 24));`
(line 252). -/
def plotWidthOf (safeWidth yAxisWidth : ℚ) : ℚ :=
  max 0 (safeWidth - (max 0 yAxisWidth + 24))

/-- The `tickPlan` memo's pipeline from the raw time list: dedup the
timestamps, then run the candidate loop. -/
def tickPlanOf {α : Type} [DecidableEq α] [Inhabited α] (times : List α)
    (plotWidth : ℚ) (widthEffOf : ℕ → ℚ) : ResolvedPlan α :=
  planTicks (uniqueKeepFirst times) plotWidth widthEffOf

/-! ### Tick planner lemmas -/

theorem strideIndices_pairwise (count step : ℕ) (hstep : 1 ≤ step) :
    (strideIndices count step).Pairwise (· < ·) := by
  unfold strideIndices
  rw [List.pairwise_map]
  exact (List.pairwise_lt_range _).imp fun h => (mul_lt_mul_right (by omega)).mpr h

theorem strideIndices_lt (count step : ℕ) (hstep : 1 ≤ step) (_hcount : 1 ≤ count) :
    ∀ i ∈ strideIndices count step, i < count := by
  intro i hi
  unfold strideIndices at hi
  rw [List.mem_map] at hi
  obtain ⟨j, hj, rfl⟩ := hi
  rw [List.mem_range] at hj
  have h2 : (j + 1) * step ≤ count + step - 1 := (Nat.le_div_iff_mul_le (by omega)).mp hj
  have h3 : j * step + step = (j + 1) * step := by ring
  omega

theorem strideIndices_length (count step : ℕ) :
    (strideIndices count step).length = (count + step - 1) / step := by
  simp [strideIndices]

theorem ceil_div_succ (count step : ℕ) (hstep : 1 ≤ step) (hcount : 1 ≤ count) :
    (count + step - 1) / step = (count - 1) / step + 1 := by
  have h : count + step - 1 = (count - 1) + step := by omega
  rw [h, Nat.add_div_right _ (by omega)]

theorem strideIndices_getLast (count step : ℕ) (hstep : 1 ≤ step) (hcount : 1 ≤ count) :
    (strideIndices count step).getLast? = some ((count - 1) / step * step) := by
  unfold strideIndices
  rw [ceil_div_succ count step hstep hcount, List.range_succ, List.map_append]
  simp

theorem strideIndices_zero_mem (count step : ℕ) (hstep : 1 ≤ step) (hcount : 1 ≤ count) :
    0 ∈ strideIndices count step := by
  unfold strideIndices
  rw [List.mem_map]
  refine ⟨0, ?_, by simp⟩
  rw [List.mem_range]
  have h : 1 ≤ (count + step - 1) / step :=
    (Nat.one_le_div_iff (by omega)).mpr (by omega)
  omega

theorem strideIndices_le_max (count step : ℕ) (hstep : 1 ≤ step) (hcount : 1 ≤ count) :
    ∀ i ∈ strideIndices count step, i ≤ (count - 1) / step * step := by
  intro i hi
  unfold strideIndices at hi
  rw [List.mem_map] at hi
  obtain ⟨j, hj, rfl⟩ := hi
  rw [List.mem_range, ceil_div_succ count step hstep hcount] at hj
  exact Nat.mul_le_mul_right step (by omega)

theorem map_getD_sublist {α : Type} [Inhabited α] :
    ∀ (ts : List α) (ids : List ℕ), ids.Pairwise (· < ·) →
      (∀ i ∈ ids, i < ts.length) →
      (ids.map (fun i => ts.getD i default)).Sublist ts := by
  intro ts
  induction ts with
  | nil =>
    intro ids hp hb
    match ids with
    | [] => simp
    | i :: ids' => exact absurd (hb i (by simp)) (by simp)
  | cons a ts ih =>
    intro ids hp hb
    have shift : ∀ (l : List ℕ), (∀ j ∈ l, 1 ≤ j) → l.Pairwise (· < ·) →
        (∀ j ∈ l, j < (a :: ts).length) →
        (l.map (fun i => (a :: ts).getD i default)).Sublist ts := by
      intro l hpos hlp hlb
      have hshift : l.map (fun i => (a :: ts).getD i default)
          = (l.map (fun i => i - 1)).map (fun i => ts.getD i default) := by
        rw [List.map_map]
        apply List.map_congr_left
        intro j hj
        have h1 := hpos j hj
        obtain ⟨j', rfl⟩ : ∃ j', j = j' + 1 := ⟨j - 1, by omega⟩
        simp
      have hp' : (l.map (fun i => i - 1)).Pairwise (· < ·) := by
        rw [List.pairwise_map]
        exact hlp.imp_of_mem fun {x y} hx hy hxy => by
          have := hpos x hx
          omega
      have hb' : ∀ i ∈ l.map (fun i => i - 1), i < ts.length := by
        intro i hi
        rw [List.mem_map] at hi
        obtain ⟨j, hj, rfl⟩ := hi
        have h1 := hpos j hj
        have h2 := hlb j hj
        simp only [List.length_cons] at h2
        omega
      rw [hshift]
      exact ih _ hp' hb'
    match ids with
    | [] => simp
    | 0 :: ids' =>
      have hpos : ∀ j ∈ ids', 1 ≤ j := by
        intro j hj
        have := (List.pairwise_cons.mp hp).1 j hj
        omega
      simp only [List.map_cons]
      have h0 : (a :: ts).getD 0 default = a := rfl
      rw [h0]
      refine List.Sublist.cons₂ a ?_
      exact shift ids' hpos (List.pairwise_cons.mp hp).2
        (fun j hj => hb j (List.mem_cons_of_mem _ hj))
    | (i + 1) :: ids' =>
      have hpos : ∀ j ∈ (i + 1) :: ids', 1 ≤ j := by
        intro j hj
        rcases List.mem_cons.mp hj with rfl | hj'
        · omega
        · have := (List.pairwise_cons.mp hp).1 j hj'
          omega
      exact List.Sublist.cons a (shift ((i + 1) :: ids') hpos hp hb)

theorem forceAppendLast_mem {α : Type} [DecidableEq α] [Inhabited α]
    (ts sel : List α) (x : α) (hx : x ∈ sel) : x ∈ forceAppendLast ts sel := by
  unfold forceAppendLast
  split
  · exact hx
  · exact List.mem_append_left _ hx

theorem forceAppendLast_last_mem {α : Type} [DecidableEq α] [Inhabited α]
    (ts sel : List α) :
    ts.getD (ts.length - 1) default ∈ forceAppendLast ts sel := by
  unfold forceAppendLast
  split
  · next h => exact List.mem_of_mem_getLast? h
  · exact List.mem_append_right _ (by simp)

theorem maxTicksFor_ge_two (pw pt : ℚ) : 2 ≤ maxTicksFor pw pt := by
  unfold maxTicksFor
  split
  · exact le_max_left _ _
  · exact le_refl 2

theorem stepFor_pos (count m : ℕ) : 1 ≤ stepFor count m := le_max_left _ _

theorem stepFor_mul_ge (count m : ℕ) (hm : 2 ≤ m) (hc : 3 ≤ count) :
    count - 1 ≤ stepFor count m * (m - 1) := by
  have hb1 : 1 ≤ m - 1 := by omega
  have hQ : count - 1 ≤ ((count - 1 + (m - 1) - 1) / (m - 1)) * (m - 1) := by
    have h1 : (count - 1 + (m - 1) - 1) / (m - 1) < (count - 1 + (m - 1) - 1) / (m - 1) + 1 :=
      Nat.lt_succ_self _
    have h2 : count - 1 + (m - 1) - 1 < ((count - 1 + (m - 1) - 1) / (m - 1) + 1) * (m - 1) :=
      (Nat.div_lt_iff_lt_mul (by omega)).mp h1
    have h3 : ((count - 1 + (m - 1) - 1) / (m - 1) + 1) * (m - 1)
        = ((count - 1 + (m - 1) - 1) / (m - 1)) * (m - 1) + (m - 1) := by ring
    omega
  calc count - 1 ≤ ((count - 1 + (m - 1) - 1) / (m - 1)) * (m - 1) := hQ
    _ ≤ (max 1 ((count - 1 + (m - 1) - 1) / (m - 1))) * (m - 1) :=
        Nat.mul_le_mul_right _ (le_max_right _ _)
    _ = stepFor count m * (m - 1) := rfl

theorem strideSelect_length {α : Type} [Inhabited α] (ts : List α) (step : ℕ)
    (hstep : 1 ≤ step) (hcount : 1 ≤ ts.length) :
    (strideSelect ts step).length = (ts.length - 1) / step + 1 := by
  unfold strideSelect
  rw [List.length_map, strideIndices_length, ceil_div_succ ts.length step hstep hcount]

theorem strideSelect_getLast {α : Type} [Inhabited α] (ts : List α) (step : ℕ)
    (hstep : 1 ≤ step) (hcount : 1 ≤ ts.length) :
    (strideSelect ts step).getLast?
      = some (ts.getD ((ts.length - 1) / step * step) default) := by
  unfold strideSelect
  rw [List.getLast?_map, strideIndices_getLast ts.length step hstep hcount]
  rfl

theorem strideSelect_first_mem {α : Type} [Inhabited α] (ts : List α) (step : ℕ)
    (hstep : 1 ≤ step) (hcount : 1 ≤ ts.length) :
    ts.getD 0 default ∈ strideSelect ts step := by
  unfold strideSelect
  exact List.mem_map_of_mem _ (strideIndices_zero_mem ts.length step hstep hcount)

theorem fallbackSelect_length_le {α : Type} [DecidableEq α] [Inhabited α]
    (ts : List α) (m : ℕ) (hm : 2 ≤ m) (hc : m < ts.length) :
    (forceAppendLast ts (strideSelect ts (stepFor ts.length m))).length ≤ m := by
  have hc3 : 3 ≤ ts.length := by omega
  have hcount : 1 ≤ ts.length := by omega
  have hstep : 1 ≤ stepFor ts.length m := stepFor_pos _ _
  have hlen := strideSelect_length ts (stepFor ts.length m) hstep hcount
  have hmul := stepFor_mul_ge ts.length m hm hc3
  have hqmul : (ts.length - 1) / stepFor ts.length m * stepFor ts.length m ≤ ts.length - 1 :=
    Nat.div_mul_le_self _ _
  have hqle : (ts.length - 1) / stepFor ts.length m ≤ m - 1 := by
    have h2 : (ts.length - 1) / stepFor ts.length m
        ≤ stepFor ts.length m * (m - 1) / stepFor ts.length m :=
      Nat.div_le_div_right hmul
    rwa [Nat.mul_div_cancel_left _ (by omega)] at h2
  unfold forceAppendLast
  split
  · rw [hlen]
    omega
  · next hne =>
    rw [List.length_append, hlen]
    have hlast := strideSelect_getLast ts (stepFor ts.length m) hstep hcount
    have hne' : (ts.length - 1) / stepFor ts.length m * stepFor ts.length m
        ≠ ts.length - 1 := by
      intro heq
      apply hne
      rw [hlast, heq]
    have hqlt : (ts.length - 1) / stepFor ts.length m < m - 1 := by
      by_contra hge
      push_neg at hge
      have h2 : stepFor ts.length m * (m - 1)
          ≤ stepFor ts.length m * ((ts.length - 1) / stepFor ts.length m) :=
        Nat.mul_le_mul_left _ hge
      have h3 : (ts.length - 1) / stepFor ts.length m * stepFor ts.length m
          = stepFor ts.length m * ((ts.length - 1) / stepFor ts.length m) :=
        Nat.mul_comm _ _
      omega
    simp only [List.length_cons, List.length_nil]
    omega

theorem fallbackSelect_pairwise {α : Type} [LinearOrder α] [Inhabited α]
    (ts : List α) (hsort : ts.Pairwise (· < ·))
    (m : ℕ) (hm : 2 ≤ m) (hc : m < ts.length) :
    (forceAppendLast ts (strideSelect ts (stepFor ts.length m))).Pairwise (· < ·) := by
  have hcount : 1 ≤ ts.length := by omega
  have hstep : 1 ≤ stepFor ts.length m := stepFor_pos _ _
  have hval : ∀ i j, i < j → j < ts.length → ts.getD i default < ts.getD j default := by
    intro i j hij hj
    have hi : i < ts.length := lt_trans hij hj
    rw [List.getD_eq_getElem ts default hi, List.getD_eq_getElem ts default hj]
    exact List.pairwise_iff_getElem.mp hsort i j hi hj hij
  have hsel : (strideSelect ts (stepFor ts.length m)).Pairwise (· < ·) := by
    unfold strideSelect
    rw [List.pairwise_map]
    refine (strideIndices_pairwise ts.length (stepFor ts.length m) hstep).imp_of_mem ?_
    intro x y hx hy hxy
    exact hval x y hxy (strideIndices_lt ts.length _ hstep hcount y hy)
  unfold forceAppendLast
  split
  · exact hsel
  · next hne =>
    rw [List.pairwise_append]
    refine ⟨hsel, List.pairwise_singleton _ _, ?_⟩
    intro x hx y hy
    rw [List.mem_singleton] at hy
    subst hy
    unfold strideSelect at hx
    rw [List.mem_map] at hx
    obtain ⟨i, hi, rfl⟩ := hx
    have hle := strideIndices_le_max ts.length _ hstep hcount i hi
    have hlast := strideSelect_getLast ts (stepFor ts.length m) hstep hcount
    have hne' : (ts.length - 1) / stepFor ts.length m * stepFor ts.length m
        ≠ ts.length - 1 := by
      intro heq
      apply hne
      rw [hlast, heq]
    have hqmul : (ts.length - 1) / stepFor ts.length m * stepFor ts.length m ≤ ts.length - 1 :=
      Nat.div_mul_le_self _ _
    exact hval i (ts.length - 1) (by omega) (by omega)

theorem fallbackSelect_sublist {α : Type} [LinearOrder α] [Inhabited α]
    (ts : List α) (_hsort : ts.Pairwise (· < ·))
    (m : ℕ) (hm : 2 ≤ m) (hc : m < ts.length) :
    (forceAppendLast ts (strideSelect ts (stepFor ts.length m))).Sublist ts := by
  have hcount : 1 ≤ ts.length := by omega
  have hstep : 1 ≤ stepFor ts.length m := stepFor_pos _ _
  unfold forceAppendLast
  split
  · exact map_getD_sublist ts _ (strideIndices_pairwise _ _ hstep)
      (strideIndices_lt _ _ hstep hcount)
  · next hne =>
    have hlast := strideSelect_getLast ts (stepFor ts.length m) hstep hcount
    have hne' : (ts.length - 1) / stepFor ts.length m * stepFor ts.length m
        ≠ ts.length - 1 := by
      intro heq
      apply hne
      rw [hlast, heq]
    have hqmul : (ts.length - 1) / stepFor ts.length m * stepFor ts.length m ≤ ts.length - 1 :=
      Nat.div_mul_le_self _ _
    have happ : strideSelect ts (stepFor ts.length m) ++ [ts.getD (ts.length - 1) default]
        = (strideIndices ts.length (stepFor ts.length m) ++ [ts.length - 1]).map
            (fun i => ts.getD i default) := by
      rw [List.map_append]
      rfl
    rw [happ]
    apply map_getD_sublist
    · rw [List.pairwise_append]
      refine ⟨strideIndices_pairwise _ _ hstep, List.pairwise_singleton _ _, ?_⟩
      intro x hx y hy
      rw [List.mem_singleton] at hy
      subst hy
      have hle := strideIndices_le_max ts.length _ hstep hcount x hx
      omega
    · intro i hi
      rw [List.mem_append] at hi
      rcases hi with hi | hi
      · exact strideIndices_lt _ _ hstep hcount i hi
      · rw [List.mem_singleton] at hi
        omega

theorem resolveCand_ticks_none {α : Type} [DecidableEq α] [Inhabited α]
    (ts : List α) (pw we : ℚ) (cand : Candidate)
    (h : ts.length ≤ maxTicksFor pw (perTickFor cand we) ∨ ts.length ≤ 2) :
    (resolveCand ts pw cand we).ticks = none := by
  unfold resolveCand
  rw [if_pos h]

theorem resolveCand_ticks_some {α : Type} [DecidableEq α] [Inhabited α]
    (ts : List α) (pw we : ℚ) (cand : Candidate)
    (h : ¬(ts.length ≤ maxTicksFor pw (perTickFor cand we) ∨ ts.length ≤ 2)) :
    (resolveCand ts pw cand we).ticks
      = some (forceAppendLast ts (strideSelect ts
          (stepFor ts.length (maxTicksFor pw (perTickFor cand we))))) := by
  unfold resolveCand
  rw [if_neg h]

theorem resolveCand_ticks_cases {α : Type} [DecidableEq α] [Inhabited α]
    (ts : List α) (pw we : ℚ) (cand : Candidate) (sel : List α)
    (h : (resolveCand ts pw cand we).ticks = some sel) :
    ¬(ts.length ≤ maxTicksFor pw (perTickFor cand we) ∨ ts.length ≤ 2) ∧
    sel = forceAppendLast ts (strideSelect ts
        (stepFor ts.length (maxTicksFor pw (perTickFor cand we)))) := by
  by_cases hc : ts.length ≤ maxTicksFor pw (perTickFor cand we) ∨ ts.length ≤ 2
  · rw [resolveCand_ticks_none ts pw we cand hc] at h
    exact absurd h (by simp)
  · rw [resolveCand_ticks_some ts pw we cand hc] at h
    exact ⟨hc, (Option.some_inj.mp h).symm⟩

theorem planTicks_eq_last {α : Type} [DecidableEq α] [Inhabited α]
    (ts : List α) (pw : ℚ) (weOf : ℕ → ℚ) (sel : List α)
    (h : (planTicks ts pw weOf).ticks = some sel) :
    planTicks ts pw weOf = resolveCand ts pw ⟨true, 10, -35⟩ (weOf 2) := by
  unfold planTicks at h ⊢
  by_cases h0 : (resolveCand ts pw ⟨true, 11, 0⟩ (weOf 0)).ticks = none
  · rw [if_pos h0] at h
    rw [h0] at h
    exact absurd h (by simp)
  · rw [if_neg h0] at h ⊢
    by_cases h1 : (resolveCand ts pw ⟨true, 10, 0⟩ (weOf 1)).ticks = none
    · rw [if_pos h1] at h
      rw [h1] at h
      exact absurd h (by simp)
    · rw [if_neg h1] at h ⊢
      exact ite_self _

theorem planTicks_showAll {α : Type} [DecidableEq α] [Inhabited α]
    (ts : List α) (pw : ℚ) (weOf : ℕ → ℚ) (h : ts.length ≤ 2) :
    (planTicks ts pw weOf).ticks = none := by
  have h0 : (resolveCand ts pw ⟨true, 11, 0⟩ (weOf 0)).ticks = none :=
    resolveCand_ticks_none ts pw (weOf 0) _ (Or.inr h)
  unfold planTicks
  rw [if_pos h0]
  exact h0

/-! ### Dedup of the timestamp list (`Array.from(new Set(times))`) -/

theorem uniqueKeepFirst_aux_mem {α : Type} [DecidableEq α] (x : α) :
    ∀ (l acc : List α),
      (x ∈ l.foldl (fun acc y => if y ∈ acc then acc else acc ++ [y]) acc
        ↔ x ∈ acc ∨ x ∈ l) := by
  intro l
  induction l with
  | nil => intro acc; simp
  | cons y t ih =>
    intro acc
    simp only [List.foldl_cons]
    rw [ih]
    by_cases hy : y ∈ acc
    · rw [if_pos hy]
      constructor
      · rintro (h | h)
        · exact Or.inl h
        · exact Or.inr (List.mem_cons_of_mem _ h)
      · rintro (h | h)
        · exact Or.inl h
        · rcases List.mem_cons.mp h with rfl | h'
          · exact Or.inl hy
          · exact Or.inr h'
    · rw [if_neg hy]
      constructor
      · rintro (h | h)
        · rcases List.mem_append.mp h with h' | h'
          · exact Or.inl h'
          · rw [List.mem_singleton] at h'
            exact Or.inr (h' ▸ List.mem_cons_self _ _)
        · exact Or.inr (List.mem_cons_of_mem _ h)
      · rintro (h | h)
        · exact Or.inl (List.mem_append_left _ h)
        · rcases List.mem_cons.mp h with rfl | h'
          · exact Or.inl (List.mem_append_right _ (by simp))
          · exact Or.inr h'

theorem uniqueKeepFirst_aux_nodup {α : Type} [DecidableEq α] :
    ∀ (l acc : List α), acc.Nodup →
      (l.foldl (fun acc y => if y ∈ acc then acc else acc ++ [y]) acc).Nodup := by
  intro l
  induction l with
  | nil => intro acc h; simpa using h
  | cons y t ih =>
    intro acc h
    simp only [List.foldl_cons]
    by_cases hy : y ∈ acc
    · rw [if_pos hy]
      exact ih acc h
    · rw [if_neg hy]
      refine ih _ ?_
      rw [List.nodup_append]
      exact ⟨h, List.nodup_singleton _, by simpa using hy⟩

theorem uniqueKeepFirst_mem {α : Type} [DecidableEq α] (l : List α) (x : α) :
    x ∈ uniqueKeepFirst l ↔ x ∈ l := by
  unfold uniqueKeepFirst
  rw [uniqueKeepFirst_aux_mem]
  simp

theorem uniqueKeepFirst_nodup {α : Type} [DecidableEq α] (l : List α) :
    (uniqueKeepFirst l).Nodup :=
  uniqueKeepFirst_aux_nodup l [] List.nodup_nil

theorem uniqueKeepFirst_length {α : Type} [DecidableEq α] (l : List α) :
    (uniqueKeepFirst l).length = l.toFinset.card := by
  rw [← List.toFinset_card_of_nodup (uniqueKeepFirst_nodup l)]
  congr 1
  ext a
  simp [List.mem_toFinset, uniqueKeepFirst_mem]

/-! ### Concrete evaluations of the measured quantities -/

theorem gapFor_eleven : gapFor ⟨true, 11, 0⟩ = 8 := by
  unfold gapFor jsRound
  have h : ⌊(11 : ℚ) * (7 / 10) + 1 / 2⌋ = 8 := by
    norm_num [Int.floor_eq_iff]
  rw [h]
  norm_num

theorem gapFor_ten : gapFor ⟨true, 10, 0⟩ = 8 := by
  unfold gapFor jsRound
  have h : ⌊(10 : ℚ) * (7 / 10) + 1 / 2⌋ = 7 := by
    norm_num [Int.floor_eq_iff]
  rw [h]
  norm_num

theorem gapFor_rotated : gapFor ⟨true, 10, -35⟩ = 8 := by
  unfold gapFor jsRound
  have h : ⌊(10 : ℚ) * (7 / 10) + 1 / 2⌋ = 7 := by
    norm_num [Int.floor_eq_iff]
  rw [h]
  norm_num

theorem perTickFor_two {c : Candidate} (h : gapFor c = 8) : perTickFor c 2 = 10 := by
  unfold perTickFor
  rw [h]
  norm_num

theorem maxTicksFor_15_10 : maxTicksFor 15 10 = 2 := by
  unfold maxTicksFor
  rw [if_pos (by norm_num)]
  have h : ⌊(15 : ℚ) / 10⌋ = 1 := by
    norm_num [Int.floor_eq_iff]
  rw [h]
  rfl

theorem maxTicksFor_50_10 : maxTicksFor 50 10 = 5 := by
  unfold maxTicksFor
  rw [if_pos (by norm_num)]
  have h : ⌊(50 : ℚ) / 10⌋ = 5 := by
    norm_num [Int.floor_eq_iff]
  rw [h]
  rfl

theorem planTicks_012 :
    (planTicks (α := ℕ) [0, 1, 2] 15 (fun _ => 2)).ticks = some [0, 2] := by
  have hm0 : maxTicksFor 15 (perTickFor ⟨true, 11, 0⟩ 2) = 2 := by
    rw [perTickFor_two gapFor_eleven, maxTicksFor_15_10]
  have hm1 : maxTicksFor 15 (perTickFor ⟨true, 10, 0⟩ 2) = 2 := by
    rw [perTickFor_two gapFor_ten, maxTicksFor_15_10]
  have hm2 : maxTicksFor 15 (perTickFor ⟨true, 10, -35⟩ 2) = 2 := by
    rw [perTickFor_two gapFor_rotated, maxTicksFor_15_10]
  have hc0 : ¬((([0, 1, 2] : List ℕ).length ≤ maxTicksFor 15 (perTickFor ⟨true, 11, 0⟩ 2))
      ∨ (([0, 1, 2] : List ℕ).length ≤ 2)) := by
    rw [hm0]; decide
  have hc1 : ¬((([0, 1, 2] : List ℕ).length ≤ maxTicksFor 15 (perTickFor ⟨true, 10, 0⟩ 2))
      ∨ (([0, 1, 2] : List ℕ).length ≤ 2)) := by
    rw [hm1]; decide
  have hc2 : ¬((([0, 1, 2] : List ℕ).length ≤ maxTicksFor 15 (perTickFor ⟨true, 10, -35⟩ 2))
      ∨ (([0, 1, 2] : List ℕ).length ≤ 2)) := by
    rw [hm2]; decide
  have hs0 := resolveCand_ticks_some ([0, 1, 2] : List ℕ) 15 2 ⟨true, 11, 0⟩ hc0
  have hs1 := resolveCand_ticks_some ([0, 1, 2] : List ℕ) 15 2 ⟨true, 10, 0⟩ hc1
  have hs2 := resolveCand_ticks_some ([0, 1, 2] : List ℕ) 15 2 ⟨true, 10, -35⟩ hc2
  unfold planTicks
  rw [if_neg (by rw [hs0]; simp), if_neg (by rw [hs1]; simp), ite_self, hs2, hm2]
  decide

theorem planTicks_range100 :
    (planTicks (α := ℕ) (List.range 100) 50 (fun _ => 2)).ticks
      = some [0, 25, 50, 75, 99] := by
  have hm0 : maxTicksFor 50 (perTickFor ⟨true, 11, 0⟩ 2) = 5 := by
    rw [perTickFor_two gapFor_eleven, maxTicksFor_50_10]
  have hm1 : maxTicksFor 50 (perTickFor ⟨true, 10, 0⟩ 2) = 5 := by
    rw [perTickFor_two gapFor_ten, maxTicksFor_50_10]
  have hm2 : maxTicksFor 50 (perTickFor ⟨true, 10, -35⟩ 2) = 5 := by
    rw [perTickFor_two gapFor_rotated, maxTicksFor_50_10]
  have hc0 : ¬(((List.range 100).length ≤ maxTicksFor 50 (perTickFor ⟨true, 11, 0⟩ 2))
      ∨ ((List.range 100).length ≤ 2)) := by
    rw [hm0]; decide
  have hc1 : ¬(((List.range 100).length ≤ maxTicksFor 50 (perTickFor ⟨true, 10, 0⟩ 2))
      ∨ ((List.range 100).length ≤ 2)) := by
    rw [hm1]; decide
  have hc2 : ¬(((List.range 100).length ≤ maxTicksFor 50 (perTickFor ⟨true, 10, -35⟩ 2))
      ∨ ((List.range 100).length ≤ 2)) := by
    rw [hm2]; decide
  have hs0 := resolveCand_ticks_some (List.range 100) 50 2 ⟨true, 11, 0⟩ hc0
  have hs1 := resolveCand_ticks_some (List.range 100) 50 2 ⟨true, 10, 0⟩ hc1
  have hs2 := resolveCand_ticks_some (List.range 100) 50 2 ⟨true, 10, -35⟩ hc2
  unfold planTicks
  rw [if_neg (by rw [hs0]; simp), if_neg (by rw [hs1]; simp), ite_self, hs2, hm2]
  decide

/-- C3 (amended): when no layout candidate can show every timestamp, the
planner takes the last (most aggressive) candidate (two-line, 10 px, -35°),
computes `stride = max(1, ⌈(count-1)/(maxTicks-1)⌉)`, selects the
timestamps at indices `0, stride, 2*stride, …` and force-appends the final
timestamp only if the stride missed it.  The resulting list is strictly
increasing, a subsequence of the input timestamps, always contains the last
input timestamp, and its length is at most
`maxTicks = max(2, ⌊plotWidthPx / perTickFootprintPx⌋)`.  The claim's
bound `⌊plotWidthPx / perTickFootprintPx⌋` itself fails when that floor is
below 2 (the code clamps `maxTicks` to at least 2, and the fallback list
always has at least 2 entries); the bound holds as soon as the floor is
≥ 2. -/
theorem c3_stride_fallback {α : Type} [LinearOrder α] [Inhabited α]
    (ts : List α) (pw : ℚ) (weOf : ℕ → ℚ) (sel : List α)
    (hsort : ts.Chain' (· < ·))
    (hplan : (planTicks ts pw weOf).ticks = some sel) :
    planTicks ts pw weOf = resolveCand ts pw ⟨true, 10, -35⟩ (weOf 2) ∧
    sel = forceAppendLast ts (strideSelect ts
        (stepFor ts.length (maxTicksFor pw (perTickFor ⟨true, 10, -35⟩ (weOf 2))))) ∧
    sel.Chain' (· < ·) ∧
    sel.Sublist ts ∧
    ts.getD (ts.length - 1) default ∈ sel ∧
    sel.length ≤ maxTicksFor pw (perTickFor ⟨true, 10, -35⟩ (weOf 2)) := by
  have hlastc := planTicks_eq_last ts pw weOf sel hplan
  rw [hlastc] at hplan
  obtain ⟨hc, hsel⟩ := resolveCand_ticks_cases ts pw (weOf 2) _ sel hplan
  push_neg at hc
  have hp : ts.Pairwise (· < ·) := List.chain'_iff_pairwise.mp hsort
  have hm2 : 2 ≤ maxTicksFor pw (perTickFor ⟨true, 10, -35⟩ (weOf 2)) :=
    maxTicksFor_ge_two _ _
  have hmc : maxTicksFor pw (perTickFor ⟨true, 10, -35⟩ (weOf 2)) < ts.length := hc.1
  subst hsel
  refine ⟨hlastc, rfl, ?_, ?_, ?_, ?_⟩
  · exact List.chain'_iff_pairwise.mpr
      (fallbackSelect_pairwise ts hp _ hm2 hmc)
  · exact fallbackSelect_sublist ts hp _ hm2 hmc
  · exact forceAppendLast_last_mem _ _
  · exact fallbackSelect_length_le ts _ hm2 hmc

/-- C3 counterexample to the claim's unclamped length bound: 3 timestamps,
plot width 15 px, footprint 10 px.  Then
`⌊plotWidthPx / perTickFootprintPx⌋ = 1`, yet the returned tick list is
`[t0, t2]` of length 2 — the code's clamp `max(2, ⌊…⌋)` applies, not the
claim's plain floor. -/
theorem c3_counterexample :
    (planTicks (α := ℕ) [0, 1, 2] 15 (fun _ => 2)).ticks = some [0, 2] ∧
    Int.toNat ⌊(15 : ℚ) / perTickFor ⟨true, 10, -35⟩ 2⌋ = 1 ∧
    ¬(([0, 2] : List ℕ).length
        ≤ Int.toNat ⌊(15 : ℚ) / perTickFor ⟨true, 10, -35⟩ 2⌋) := by
  have hpt : perTickFor ⟨true, 10, -35⟩ 2 = 10 := perTickFor_two gapFor_rotated
  have hfl : Int.toNat ⌊(15 : ℚ) / 10⌋ = 1 := by
    have h : ⌊(15 : ℚ) / 10⌋ = 1 := by norm_num [Int.floor_eq_iff]
    rw [h]
    rfl
  refine ⟨planTicks_012, ?_, ?_⟩
  · rw [hpt, hfl]
  · rw [hpt, hfl]
    decide

/-- Instantiation of `c3_stride_fallback`: 100 sorted timestamps, a width
and footprint giving `maxTicks = 5`; the plan is `[0, 25, 50, 75, 99]` —
strictly increasing, a subsequence, ending in the last timestamp, length
5 ≤ 5. -/
theorem c3_stride_fallback_witness :
    ((List.range 100).Chain' (· < ·) ∧
      (planTicks (α := ℕ) (List.range 100) 50 (fun _ => 2)).ticks
        = some [0, 25, 50, 75, 99]) ∧
    ([0, 25, 50, 75, 99] : List ℕ).Sublist (List.range 100) :=
  ⟨⟨List.chain'_iff_pairwise.mpr (List.pairwise_lt_range 100), planTicks_range100⟩,
    (c3_stride_fallback (List.range 100) 50 (fun _ => 2) [0, 25, 50, 75, 99]
      (List.chain'_iff_pairwise.mpr (List.pairwise_lt_range 100)) planTicks_range100).2.2.2.1⟩

/-- C5: for a timestamp list with at most 2 distinct values, the planner
returns the show-all plan (`ticks = undefined`) for every plot width,
including the width computed from zero or negative effective widths. -/
theorem c5_small_count_show_all {α : Type} [DecidableEq α] [Inhabited α]
    (times : List α) (pw safeWidth yAxisWidth : ℚ) (weOf : ℕ → ℚ)
    (h : times.toFinset.card ≤ 2) :
    (tickPlanOf times pw weOf).ticks = none ∧
    (tickPlanOf times (plotWidthOf safeWidth yAxisWidth) weOf).ticks = none := by
  have hlen : (uniqueKeepFirst times).length ≤ 2 := by
    rw [uniqueKeepFirst_length]
    exact h
  exact ⟨planTicks_showAll _ _ _ hlen, planTicks_showAll _ _ _ hlen⟩

/-- Instantiation of `c5_small_count_show_all`: three raw samples with two
distinct timestamps and a negative plot width. -/
theorem c5_small_count_show_all_witness :
    (([5, 5, 7] : List ℕ).toFinset.card ≤ 2) ∧
    (tickPlanOf ([5, 5, 7] : List ℕ) (-3) (fun _ => 2)).ticks = none :=
  ⟨by decide,
    (c5_small_count_show_all [5, 5, 7] (-3) 0 0 (fun _ => 2) (by decide)).1⟩

/-- C10: whenever the planner returns an explicit tick list, the list
contains the first input timestamp — index 0 is selected unconditionally by
the stride loop — in addition to the guaranteed final timestamp. -/
theorem c10_first_tick {α : Type} [DecidableEq α] [Inhabited α]
    (ts : List α) (pw : ℚ) (weOf : ℕ → ℚ) (sel : List α)
    (hplan : (planTicks ts pw weOf).ticks = some sel) :
    ts.getD 0 default ∈ sel ∧ ts.getD (ts.length - 1) default ∈ sel := by
  have hlastc := planTicks_eq_last ts pw weOf sel hplan
  rw [hlastc] at hplan
  obtain ⟨hc, hsel⟩ := resolveCand_ticks_cases ts pw (weOf 2) _ sel hplan
  push_neg at hc
  subst hsel
  have hcount : 1 ≤ ts.length := by omega
  exact ⟨forceAppendLast_mem _ _ _
      (strideSelect_first_mem ts _ (stepFor_pos _ _) hcount),
    forceAppendLast_last_mem _ _⟩

/-- Instantiation of `c10_first_tick`: the explicit plan `[0, 2]` for
timestamps `[0, 1, 2]` contains the first timestamp `0`. -/
theorem c10_first_tick_witness :
    ((planTicks (α := ℕ) [0, 1, 2] 15 (fun _ => 2)).ticks = some [0, 2]) ∧
    ([0, 1, 2] : List ℕ).getD 0 default ∈ ([0, 2] : List ℕ) :=
  ⟨planTicks_012,
    (c10_first_tick ([0, 1, 2] : List ℕ) 15 (fun _ => 2) [0, 2] planTicks_012).1⟩

/-! ## Bounded readiness poll (claim C9, `waitForCharts`) -/

/-- Readiness of poll `i`:
`list.length > 0 && list.every(n => (n.getBoundingClientRect().width || 0) > 0)`.
`snap i` models the widths of the export items the `i`-th
`querySelectorAll('[data-trend-export-item="true"]')` observes (the list
grows/fills in as React renders off-screen). -/
def waitReady (snap : ℕ → List ℚ) (i : ℕ) : Bool :=
  !(snap i).isEmpty && (snap i).all (fun w => decide (0 < w))

/-- The retry loop of `waitForCharts` (part_016 lines 406-416):
`for (let i = 0; i < 30; i++) { … if (ready) return list; await sleep(50) }`
followed by a final `querySelectorAll` (snapshot index 30) returned without
throwing.  Real time is not modelled; the fixed 50 ms interval appears in
the source as `setTimeout(resolve, 50)` and only the retry count is
observable here.  The result is (snapshot index returned, its item list). -/
def waitAux (snap : ℕ → List ℚ) : ℕ → ℕ → ℕ × List ℚ
  | 0, i => (i, snap i)
  | b + 1, i => if waitReady snap i then (i, snap i) else waitAux snap b (i + 1)

/-- `waitForCharts`: 30 polls starting at snapshot 0. -/
def waitForChartsModel (snap : ℕ → List ℚ) : ℕ × List ℚ :=
  waitAux snap 30 0

theorem waitAux_fst_le (snap : ℕ → List ℚ) :
    ∀ (b i : ℕ), (waitAux snap b i).1 ≤ i + b := by
  intro b
  induction b with
  | zero => intro i; simp [waitAux]
  | succ n ih =>
    intro i
    unfold waitAux
    split
    · simp
    · have := ih (i + 1)
      omega

theorem waitAux_of_none (snap : ℕ → List ℚ) :
    ∀ (b i : ℕ), (∀ j, i ≤ j → j < i + b → waitReady snap j = false) →
      waitAux snap b i = (i + b, snap (i + b)) := by
  intro b
  induction b with
  | zero => intro i h; simp [waitAux]
  | succ n ih =>
    intro i h
    unfold waitAux
    rw [if_neg (by rw [h i (le_refl i) (by omega)]; simp)]
    have heq : i + 1 + n = i + (n + 1) := by omega
    rw [ih (i + 1) (fun j hj1 hj2 => h j (by omega) (by omega)), heq]

theorem waitAux_of_first (snap : ℕ → List ℚ) :
    ∀ (b i k : ℕ), i ≤ k → k < i + b → waitReady snap k = true →
      (∀ j, i ≤ j → j < k → waitReady snap j = false) →
      waitAux snap b i = (k, snap k) := by
  intro b
  induction b with
  | zero =>
    intro i k h1 h2 _ _
    omega
  | succ n ih =>
    intro i k h1 h2 hk hprev
    unfold waitAux
    by_cases hik : i = k
    · subst hik
      rw [if_pos (by rw [hk])]
    · have hlt : i < k := lt_of_le_of_ne h1 hik
      rw [if_neg (by rw [hprev i (le_refl i) hlt]; simp)]
      exact ih (i + 1) k (by omega) (by omega) hk (fun j hj1 hj2 => hprev j (by omega) hj2)

/-- C9 counterexample: when no export item ever appears, every item of the
(empty) item set reports non-zero width vacuously from the very first poll;
yet the wait does not return early — the code additionally requires
`list.length > 0` — and all 30 polls are spent before the final query's
(empty) result is returned. -/
theorem c9_counterexample :
    (∀ w ∈ (fun _ : ℕ => ([] : List ℚ)) 0, 0 < w) ∧
    waitForChartsModel (fun _ => []) = (30, []) ∧
    ¬((waitForChartsModel (fun _ => [])).1 = 0) := by
  refine ⟨?_, by decide, by decide⟩
  intro w hw
  simp at hw

/-- C9 (amended): the readiness wait polls the marked export items at most
30 times, returns early at the first poll at which at least one item exists
and every item reports non-zero measured width, and after the retry budget
is exhausted returns whatever items the final query finds, without
throwing; the export therefore always terminates its wait and proceeds
best-effort. -/
theorem c9_wait_bounded (snap : ℕ → List ℚ) :
    (waitForChartsModel snap).1 ≤ 30 ∧
    ((∀ i, i < 30 → waitReady snap i = false) →
      waitForChartsModel snap = (30, snap 30)) ∧
    (∀ i, i < 30 → waitReady snap i = true →
      (∀ j, j < i → waitReady snap j = false) →
      waitForChartsModel snap = (i, snap i)) := by
  refine ⟨by simpa using waitAux_fst_le snap 30 0, ?_, ?_⟩
  · intro h
    simpa using waitAux_of_none snap 30 0 (fun j _ hj2 => h j (by omega))
  · intro i hi hr hprev
    exact waitAux_of_first snap 30 0 i (by omega) (by omega) hr
      (fun j _ hj2 => hprev j hj2)

end SmartAqua
